import Mathlib

/-!
Verification of the orso columnar compression codec and schema-migration layer.

The integer codec (src/orso/src/i64_codec.rs) delta-encodes a sequence of
64-bit signed integers, zigzag-maps each delta, serializes the unsigned
stream as LEB128 varints, block-compresses the varint bytes with an external
block compressor (lz4_flex), and prepends a fixed 14-byte header
(magic "ORSO", version byte, scheme byte, little-endian u64 element count).

Signed 64-bit machine integers are embedded as `Int` values in
[-2^63, 2^63) with explicit wraparound (`wrap64`); bytes and unsigned
64-bit values are embedded as `Nat` with explicit `% 2 ^ 64` where the
machine width matters.  The external lz4_flex block compressor is an
external collaborator of the repository, modelled by a `BlockCodec`
structure whose lossless round-trip contract is an explicit hypothesis of
the theorems that depend on it.
-/

set_option maxHeartbeats 1000000

namespace Orso

/-- Range predicate of a Rust `i64` value embedded as `Int`. -/
def validI64 (i : Int) : Prop := -(2 ^ 63) ≤ i ∧ i < 2 ^ 63

instance (i : Int) : Decidable (validI64 i) := by
  unfold validI64; infer_instance

/-- Two's-complement wraparound of an integer into the `i64` range: the value
of the low 64 bits of `x` read as a signed 64-bit integer.  This is the
semantics of Rust's `wrapping_add` / `wrapping_sub` results on `i64`. -/
def wrap64 (x : Int) : Int := (x + 2 ^ 63) % 2 ^ 64 - 2 ^ 63

/-- Bit pattern of an `i64` value, as a `Nat` below `2 ^ 64`
(the semantics of Rust's `as u64` cast). -/
def toU64 (i : Int) : Nat := (i % 2 ^ 64).toNat

/-- Signed value of a 64-bit pattern (the semantics of Rust's `as i64` cast). -/
def toI64 (u : Nat) : Int := if u < 2 ^ 63 then (u : Int) else (u : Int) - 2 ^ 64

/-- Translation of `I64Codec::zigzag` (src/orso/src/i64_codec.rs lines 21-24):
`((i << 1) ^ (i >> 63)) as u64` on an in-range `i64` argument.  `i << 1`
doubles the bit pattern modulo `2 ^ 64`; the arithmetic shift `i >> 63` is
all-ones exactly when `i` is negative; `^` is bitwise xor of the patterns. -/
def zigzag (i : Int) : Nat :=
  (2 * toU64 i % 2 ^ 64) ^^^ (if i < 0 then 2 ^ 64 - 1 else 0)

/-- Translation of `I64Codec::unzigzag` (src/orso/src/i64_codec.rs lines 25-28):
`((u >> 1) as i64) ^ (-((u & 1) as i64))`.  `u >> 1` halves the pattern;
`-((u & 1) as i64)` is all-ones exactly when `u` is odd. -/
def unzigzag (u : Nat) : Int :=
  toI64 ((u / 2) ^^^ (if u % 2 = 1 then 2 ^ 64 - 1 else 0))

/-- LEB128 byte stream of an unsigned value, with explicit recursion fuel:
low 7 bits per byte, high bit set on every byte but the last.  Fuel 10
covers every `u64` value, matching the at-most-10 bytes the
`integer_encoding` crate's `write_varint` emits for `u64`. -/
def varintEncodeAux : Nat → Nat → List Nat
  | 0, _ => []
  | fuel + 1, u =>
    if u < 128 then [u] else (u % 128 + 128) :: varintEncodeAux fuel (u / 128)

/-- Translation of the `integer_encoding` crate's `write_varint` for a `u64`
value (called at src/orso/src/i64_codec.rs line 49). -/
def varintEncode (u : Nat) : List Nat := varintEncodeAux 10 u

/-- Translation of the `integer_encoding` crate's `read_varint` for `u64`
(called at src/orso/src/i64_codec.rs lines 83-85): consume continuation bytes
until one with a clear high bit, errors on end of input. -/
def varintDecode : List Nat → Except String (Nat × List Nat)
  | [] => Except.error "varint decode: unexpected eof"
  | b :: rest =>
    if b < 128 then Except.ok (b, rest)
    else
      match varintDecode rest with
      | Except.ok (v, rest₂) => Except.ok (b % 128 + 128 * v, rest₂)
      | Except.error e => Except.error e

/-- The decompress loop of src/orso/src/i64_codec.rs lines 82-89 reads exactly
`n` varints from the cursor over the unpacked bytes, leaving any trailing
bytes unread. -/
def readVarints : Nat → List Nat → Except String (List Nat)
  | 0, _ => Except.ok []
  | n + 1, bs =>
    match varintDecode bs with
    | Except.error e => Except.error e
    | Except.ok (v, rest) =>
      match readVarints n rest with
      | Except.error e => Except.error e
      | Except.ok vs => Except.ok (v :: vs)

/-- Interface of the external lz4_flex block compressor used by the codec
(src/orso/src/i64_codec.rs lines 53 and 76): `comp` stands for
`compress_prepend_size` and `decomp` for `decompress_size_prepended`.
The crate is an external collaborator of the repository, so the codec
theorems take its lossless contract as an explicit hypothesis. -/
structure BlockCodec where
  comp : List Nat → List Nat
  decomp : List Nat → Except String (List Nat)

/-- Lossless contract of the block compressor: decompressing a compressed
block recovers the block exactly. -/
def BlockCodec.Lossless (bc : BlockCodec) : Prop :=
  ∀ x, bc.decomp (bc.comp x) = Except.ok x

/-- Trivial instance of the block-compressor contract, used to evaluate the
codec theorems at concrete inputs. -/
def idBC : BlockCodec := ⟨fun x => x, fun x => Except.ok x⟩

/-- The magic constant `b"ORSO"` written at src/orso/src/i64_codec.rs line 38. -/
def magic : List Nat := [79, 82, 83, 79]

/-- Little-endian bytes of `(n as u64).to_le_bytes()`
(src/orso/src/i64_codec.rs line 41). -/
def u64leBytes (n : Nat) : List Nat :=
  [n % 256, n / 256 % 256, n / 256 ^ 2 % 256, n / 256 ^ 3 % 256,
   n / 256 ^ 4 % 256, n / 256 ^ 5 % 256, n / 256 ^ 6 % 256, n / 256 ^ 7 % 256]

/-- Value of a little-endian byte sequence, the semantics of
`u64::from_le_bytes` (src/orso/src/i64_codec.rs line 74). -/
def u64leValue (bs : List Nat) : Nat := bs.foldr (fun b acc => b + 256 * acc) 0

/-- The delta + zigzag + varint loop of `I64Codec::compress`
(src/orso/src/i64_codec.rs lines 44-50), producing the `tmp` byte stream:
each element's wrapping difference from its predecessor (`prev` starts at 0)
is zigzag-mapped and varint-serialized. -/
def encodeBody (prev : Int) : List Int → List Nat
  | [] => []
  | x :: xs => varintEncode (zigzag (wrap64 (x - prev))) ++ encodeBody x xs

/-- The same loop viewed at the value level: the stream of zigzag-mapped
wrapping deltas that `encodeBody` serializes, one `u64` per element. -/
def zstream (prev : Int) : List Int → List Nat
  | [] => []
  | x :: xs => zigzag (wrap64 (x - prev)) :: zstream x xs

/-- Translation of `I64Codec::compress` (src/orso/src/i64_codec.rs lines
30-56): empty input returns the empty blob; otherwise the 14-byte header
(magic, version 1, scheme 1, little-endian element count) followed by the
block-compressed varint body.  The Rust function's error branch is never
taken: writing varints into a `Vec` is infallible and the lz4 block
compressor returns plain bytes. -/
def compress (bc : BlockCodec) (data : List Int) : Except String (List Nat) :=
  if data = [] then Except.ok []
  else
    Except.ok
      (magic ++ [1, 1] ++ u64leBytes data.length ++ bc.comp (encodeBody 0 data))

/-- The running-sum loop of `I64Codec::decompress`
(src/orso/src/i64_codec.rs lines 81-89): un-zigzag each value and add it to
the accumulator with wrapping addition. -/
def decodeAcc (acc : Int) : List Nat → List Int
  | [] => []
  | v :: vs =>
    wrap64 (acc + unzigzag v) :: decodeAcc (wrap64 (acc + unzigzag v)) vs

/-- Translation of `I64Codec::decompress` (src/orso/src/i64_codec.rs lines
58-91): empty blob returns the empty sequence; then header validation
(length, magic, version, scheme), little-endian element count, block
decompression, and exactly `n` varints folded through the wrapping running
sum. -/
def decompress (bc : BlockCodec) (blob : List Nat) : Except String (List Int) :=
  if blob = [] then Except.ok []
  else if blob.length < 14 then Except.error "blob too small"
  else if blob.take 4 ≠ magic then Except.error "bad magic"
  else if blob.getD 4 0 ≠ 1 then Except.error "bad version"
  else if blob.getD 5 0 ≠ 1 then Except.error "unsupported codec"
  else
    match bc.decomp (blob.drop 14) with
    | Except.error e => Except.error ("lz4 decompress failed: " ++ e)
    | Except.ok packed =>
      match readVarints (u64leValue ((blob.drop 6).take 8)) packed with
      | Except.error e => Except.error e
      | Except.ok vs => Except.ok (decodeAcc 0 vs)

/-- Translation of `I64Codec::compress_many` (src/orso/src/i64_codec.rs lines
93-95): compress each sequence and collect the results in input order (the
rayon `par_iter().map(..).collect()` preserves input ordering and
short-circuits on the first error). -/
def compress_many (bc : BlockCodec) (arrays : List (List Int)) :
    Except String (List (List Nat)) :=
  arrays.mapM (compress bc)

/-- Translation of `I64Codec::decompress_many` (src/orso/src/i64_codec.rs
lines 96-98). -/
def decompress_many (bc : BlockCodec) (blobs : List (List Nat)) :
    Except String (List (List Int)) :=
  blobs.mapM (decompress bc)

/-! Storage values and the generated from_map read path
(src/orso-macros/src/lib.rs). -/

/-- The tagged storage value exchanged with the database layer (the orso
`Value` enum used throughout src/orso-macros/src/lib.rs).  The `Real`
(64-bit float) variant is outside this embedding (floating point); it is
unreachable in the compressed-column decode path the claims concern. -/
inductive Value where
  | null : Value
  | integer (i : Int) : Value
  | text (s : String) : Value
  | blob (b : List Nat) : Value
  | boolean (b : Bool) : Value

/-- Minimal model of the serde_json values the generated `from_map` builds
per field: null, booleans, integer numbers, strings and arrays. -/
inductive Json where
  | null : Json
  | bool (b : Bool) : Json
  | num (n : Int) : Json
  | str (s : String) : Json
  | arr (xs : List Json) : Json

/-- Rust `Debug` rendering of a `Vec<u8>`, as produced by the
`format!("Failed to decompress: ...")` fallback in the generated
`from_map`: the bytes comma-separated between square brackets. -/
def rustDebugList (b : List Nat) : String :=
  "[" ++ String.intercalate ", " (b.map (fun x => toString x)) ++ "]"

/-- Translation of the `orso::Value::Blob` arm of the compressed-field
branch of the generated `from_map` (src/orso-macros/src/lib.rs lines
341-359): attempt to decompress the stored blob with the integer codec; on
success produce the JSON array of the recovered integers; on failure
substitute the fallback string — the decode error is not propagated
(`from_map`'s only error exit is the final serde deserialization). -/
def fromMapCompressedBlob (bc : BlockCodec) (b : List Nat) : Json :=
  match decompress bc b with
  | Except.ok vec => Json.arr (vec.map (fun i => Json.num i))
  | Except.error _ => Json.str ("Failed to decompress: " ++ rustDebugList b)

/-! Column definition generation in the derive macro
(src/orso-macros/src/lib.rs). -/

/-- Shape of a Rust field type as the macro inspects it
(map_rust_type_to_sql_type, src/orso-macros/src/lib.rs lines 594-619). -/
inductive RustTy where
  | string : RustTy
  | i64 : RustTy
  | i32 : RustTy
  | i16 : RustTy
  | i8 : RustTy
  | u64 : RustTy
  | u32 : RustTy
  | u16 : RustTy
  | u8 : RustTy
  | f64 : RustTy
  | f32 : RustTy
  | bool : RustTy
  | option (t : RustTy) : RustTy
  | other : RustTy

/-- Translation of map_rust_type_to_sql_type (src/orso-macros/src/lib.rs
lines 594-619). -/
def map_rust_type_to_sql_type : RustTy → String
  | RustTy.string => "TEXT"
  | RustTy.i64 => "INTEGER"
  | RustTy.i32 => "INTEGER"
  | RustTy.i16 => "INTEGER"
  | RustTy.i8 => "INTEGER"
  | RustTy.u64 => "INTEGER"
  | RustTy.u32 => "INTEGER"
  | RustTy.u16 => "INTEGER"
  | RustTy.u8 => "INTEGER"
  | RustTy.f64 => "REAL"
  | RustTy.f32 => "REAL"
  | RustTy.bool => "INTEGER"
  | RustTy.option t => map_rust_type_to_sql_type t
  | RustTy.other => "TEXT"

/-- Translation of is_option_type (src/orso-macros/src/lib.rs lines 652-659). -/
def is_option_type : RustTy → Bool
  | RustTy.option _ => true
  | _ => false

/-- The flags parse_orso_column_attr (src/orso-macros/src/lib.rs lines
518-541) collects from a field's orso_column attribute before emitting the
column definition. -/
structure ColumnAttr where
  columnType : Option String
  isForeignKey : Bool
  foreignTable : Option String
  uniq : Bool
  primaryKey : Bool
  isCompressed : Bool
  isCreatedAt : Bool
  isUpdatedAt : Bool

/-- A single-quote character, used to spell the SQL string literals the
macro emits. -/
def sq : String := String.singleton (Char.ofNat 39)

/-- The timestamp default suffix appended for created_at/updated_at columns
(src/orso-macros/src/lib.rs lines 573-576). -/
def timestampDefault : String :=
  " DEFAULT (strftime(" ++ sq ++ "%Y-%m-%dT%H:%M:%S.000Z" ++ sq ++ ", " ++
    sq ++ "now" ++ sq ++ "))"

/-- Translation of the base-type choice of parse_orso_column_attr
(src/orso-macros/src/lib.rs lines 543-551): compressed fields always store
as BLOB, foreign keys as TEXT, otherwise the declared type override or the
type mapped from the Rust field type. -/
def base_type (a : ColumnAttr) (fieldType : RustTy) : String :=
  if a.isCompressed then "BLOB"
  else if a.isForeignKey then "TEXT"
  else a.columnType.getD (map_rust_type_to_sql_type fieldType)

/-- Translation of the column-definition assembly of parse_orso_column_attr
(src/orso-macros/src/lib.rs lines 553-578): name and base type, then the
PRIMARY KEY (with TEXT default), NOT NULL, UNIQUE, REFERENCES and timestamp
DEFAULT suffixes in source order. -/
def column_def (fieldName : String) (a : ColumnAttr) (fieldType : RustTy) :
    String :=
  let base := base_type a fieldType
  let s0 := fieldName ++ " " ++ base
  let s1 := if a.primaryKey then
      s0 ++ " PRIMARY KEY" ++
        (if base = "TEXT" then " DEFAULT (lower(hex(randomblob(16))))" else "")
    else s0
  let s2 := if !is_option_type fieldType && !a.primaryKey then
      s1 ++ " NOT NULL" else s1
  let s3 := if a.uniq then s2 ++ " UNIQUE" else s2
  let s4 := match a.foreignTable with
    | some t => s3 ++ " REFERENCES " ++ t ++ "(id)"
    | none => s3
  if a.isCreatedAt || a.isUpdatedAt then s4 ++ timestampDefault else s4

/-! Schema fingerprints and the migration cycle. -/

/-- Logical column type of a descriptor (spec §3). -/
inductive FieldType where
  | text : FieldType
  | integer : FieldType
  | bigint : FieldType
  | numeric : FieldType
  | boolean : FieldType
deriving DecidableEq

/-- Modelled from the spec: the Column Descriptor of §3 (name, logical
type, nullable, unique, primary key, foreign key reference, compressed
flag).  The migration engine that consumes these (Migrations::init and its
diff classification) is code of the repository not present under src/ —
only its test driver src/orso/src/test_migration_detection.rs is — so the
descriptor and the cycle below follow the spec's §3, §4.2 and §4.3. -/
structure ColumnDesc where
  name : String
  logicalType : FieldType
  nullable : Bool
  uniq : Bool
  primaryKey : Bool
  foreignKey : Option String
  compressed : Bool

/-- Modelled from the spec: attribute-wise agreement of two descriptors of
the same column name (§3: identical logical_type, nullable, unique,
primary_key, foreign_key, compressed). -/
def sameColAttrs (c d : ColumnDesc) : Bool :=
  c.logicalType == d.logicalType && c.nullable == d.nullable &&
    c.uniq == d.uniq && c.primaryKey == d.primaryKey &&
    c.foreignKey == d.foreignKey && c.compressed == d.compressed

/-- Modelled from the spec: fingerprint equality (§3) — every column name
present in one list is present in the other with identical attributes;
column order is irrelevant. -/
def fingerprintEq (a b : List ColumnDesc) : Bool :=
  a.all (fun c => b.any (fun d => d.name == c.name && sameColAttrs c d)) &&
    b.all (fun d => a.any (fun c => c.name == d.name && sameColAttrs d c))

/-- Modelled from the spec: the Migration Action of §3 — SchemaMatched,
table creation, or a structural rebuild with the added/removed/changed
column-name sets. -/
inductive MigrationAction where
  | schemaMatched : MigrationAction
  | created : MigrationAction
  | dataMigrated (added removed changed : List String) : MigrationAction
deriving DecidableEq

/-- Modelled from the spec: columns the desired fingerprint has and the
actual one lacks (§4.2). -/
def addedCols (desired actual : List ColumnDesc) : List String :=
  (desired.filter (fun c => !actual.any (fun d => d.name == c.name))).map
    (fun c => c.name)

/-- Modelled from the spec: columns the actual fingerprint has and the
desired one lacks (§4.2). -/
def removedCols (desired actual : List ColumnDesc) : List String :=
  (actual.filter (fun d => !desired.any (fun c => c.name == d.name))).map
    (fun d => d.name)

/-- Modelled from the spec: columns present in both fingerprints whose
attributes differ (§4.2). -/
def changedCols (desired actual : List ColumnDesc) : List String :=
  (desired.filter (fun c =>
    actual.any (fun d => d.name == c.name && !sameColAttrs c d))).map
    (fun c => c.name)

/-- Modelled from the spec: diff classification per table (§4.2): `created`
when the table does not exist, `schemaMatched` on fully equal fingerprints,
otherwise a rebuild with the three name sets. -/
def diff (desired : List ColumnDesc) (actual : Option (List ColumnDesc)) :
    MigrationAction :=
  match actual with
  | none => MigrationAction.created
  | some act =>
    if fingerprintEq desired act then MigrationAction.schemaMatched
    else
      MigrationAction.dataMigrated (addedCols desired act)
        (removedCols desired act) (changedCols desired act)

/-- Modelled from the spec: one diff-and-execute migration cycle over a
table state (the live schema; `none` when the table does not exist):
create on absence, physical no-op when the fingerprints match, safe
rebuild to the desired fingerprint otherwise (§4.2, §4.3).  Returns the
classification and the table state after the run. -/
def migrationCycle (desired : List ColumnDesc)
    (state : Option (List ColumnDesc)) :
    MigrationAction × Option (List ColumnDesc) :=
  match diff desired state with
  | MigrationAction.schemaMatched => (MigrationAction.schemaMatched, state)
  | MigrationAction.created => (MigrationAction.created, some desired)
  | MigrationAction.dataMigrated a r c =>
    (MigrationAction.dataMigrated a r c, some desired)

/-- The suffix parse_orso_column_attr appends after the name and base type:
PRIMARY KEY (plus the TEXT default), NOT NULL, UNIQUE, REFERENCES and
timestamp DEFAULT, in source order. -/
def column_def_suffix (a : ColumnAttr) (ty : RustTy) (base : String) : String :=
  (if a.primaryKey then
    " PRIMARY KEY" ++
      (if base = "TEXT" then " DEFAULT (lower(hex(randomblob(16))))" else "")
  else "") ++
  (if !is_option_type ty && !a.primaryKey then " NOT NULL" else "") ++
  (if a.uniq then " UNIQUE" else "") ++
  (match a.foreignTable with
   | some t => " REFERENCES " ++ t ++ "(id)"
   | none => "") ++
  (if a.isCreatedAt || a.isUpdatedAt then timestampDefault else "")

/-- Column descriptors of the MigrationTest struct of
src/orso/src/test_migration_detection.rs (id: primary-key text, name: text,
age: integer), used to evaluate the migration theorems concretely. -/
def migrationTestCols : List ColumnDesc :=
  [⟨"id", FieldType.text, true, false, true, none, false⟩,
   ⟨"name", FieldType.text, false, false, false, none, false⟩,
   ⟨"age", FieldType.integer, false, false, false, none, false⟩]

/-! Theorems. -/

theorem idBC_lossless : idBC.Lossless := fun _ => rfl

/-! Arithmetic facts about the zigzag transform and wrapping sums. -/

theorem xor_two_pow_sub_one {n x : Nat} (h : x < 2 ^ n) :
    x ^^^ (2 ^ n - 1) = 2 ^ n - 1 - x := by
  apply Nat.eq_of_testBit_eq
  intro i
  have h1 : 2 ^ n - 1 - x = 2 ^ n - (x + 1) := by omega
  rw [Nat.testBit_xor, h1, Nat.testBit_two_pow_sub_succ h,
    Nat.testBit_two_pow_sub_one]
  by_cases hi : i < n
  · simp [hi]
  · have hxi : Nat.testBit x i = false :=
      Nat.testBit_lt_two_pow
        (Nat.lt_of_lt_of_le h (Nat.pow_le_pow_right (by norm_num) (by omega)))
    simp [hi, hxi]

theorem zigzag_spec {i : Int} (h : validI64 i) :
    zigzag i = if 0 ≤ i then (2 * i).toNat else (-(2 * i) - 1).toNat := by
  obtain ⟨h1, h2⟩ := h
  unfold zigzag toU64
  by_cases hi : i < 0
  · have hmod : i % 2 ^ 64 = i + 2 ^ 64 := by omega
    rw [hmod, if_pos hi, if_neg (by omega)]
    have hp : ((i + 2 ^ 64).toNat : Int) = i + 2 ^ 64 := Int.toNat_of_nonneg (by omega)
    have hlo : 2 ^ 63 ≤ (i + 2 ^ 64).toNat := by omega
    have hhi : (i + 2 ^ 64).toNat < 2 ^ 64 := by omega
    have hdbl : 2 * (i + 2 ^ 64).toNat % 2 ^ 64 = 2 * (i + 2 ^ 64).toNat - 2 ^ 64 := by
      omega
    rw [hdbl, xor_two_pow_sub_one (by omega)]
    omega
  · have hmod : i % 2 ^ 64 = i := by omega
    rw [hmod, if_neg hi, if_pos (by omega)]
    have hdbl : 2 * i.toNat % 2 ^ 64 = 2 * i.toNat := by omega
    rw [hdbl, Nat.xor_zero]
    omega

theorem unzigzag_spec {u : Nat} (h : u < 2 ^ 64) :
    unzigzag u = if u % 2 = 0 then ((u / 2 : Nat) : Int)
                 else -((u / 2 : Nat) : Int) - 1 := by
  unfold unzigzag toI64
  by_cases hu : u % 2 = 1
  · rw [if_pos hu, xor_two_pow_sub_one (show u / 2 < 2 ^ 64 by omega),
      if_neg (by omega), if_neg (by omega)]
    omega
  · rw [if_neg hu, Nat.xor_zero, if_pos (by omega), if_pos (by omega)]

theorem unzigzag_zigzag {i : Int} (h : validI64 i) : unzigzag (zigzag i) = i := by
  obtain ⟨h1, h2⟩ := h
  rw [zigzag_spec ⟨h1, h2⟩]
  by_cases hi : 0 ≤ i
  · rw [if_pos hi, unzigzag_spec (by omega)]
    split <;> omega
  · rw [if_neg hi, unzigzag_spec (by omega)]
    split <;> omega

theorem wrap64_valid (x : Int) : validI64 (wrap64 x) := by
  unfold validI64 wrap64
  constructor <;> omega

theorem zigzag_lt {i : Int} (h : validI64 i) : zigzag i < 2 ^ 64 := by
  obtain ⟨h1, h2⟩ := h
  rw [zigzag_spec ⟨h1, h2⟩]
  split <;> omega

/-- One decoding step undoes one encoding step: adding (with wraparound) the
un-zigzagged wrapping delta of `x` from `prev` back onto `prev` recovers
`x`, for in-range `x` and `prev`. -/
theorem wrap64_step {x prev : Int} (hx : validI64 x) (hprev : validI64 prev) :
    wrap64 (prev + unzigzag (zigzag (wrap64 (x - prev)))) = x := by
  rw [unzigzag_zigzag (wrap64_valid _)]
  obtain ⟨a1, a2⟩ := hx
  obtain ⟨b1, b2⟩ := hprev
  unfold wrap64
  omega

theorem decodeAcc_zstream :
    ∀ (data : List Int), (∀ i ∈ data, validI64 i) →
      ∀ prev, validI64 prev → decodeAcc prev (zstream prev data) = data := by
  intro data
  induction data with
  | nil => intro _ prev _; rfl
  | cons x xs ih =>
    intro h prev hprev
    have hx : validI64 x := h x (by simp)
    have hxs : ∀ i ∈ xs, validI64 i := fun i hi => h i (by simp [hi])
    show decodeAcc prev (zigzag (wrap64 (x - prev)) :: zstream x xs) = x :: xs
    unfold decodeAcc
    rw [wrap64_step hx hprev, ih hxs x hx]

/-! Varint and little-endian round trips. -/

theorem varintDecode_encodeAux :
    ∀ (fuel u : Nat), u < 128 ^ fuel → 0 < fuel → ∀ (rest : List Nat),
      varintDecode (varintEncodeAux fuel u ++ rest) = Except.ok (u, rest) := by
  intro fuel
  induction fuel with
  | zero => intro u _ hf _; omega
  | succ f ih =>
    intro u hu _ rest
    unfold varintEncodeAux
    by_cases hsmall : u < 128
    · rw [if_pos hsmall]
      show varintDecode (u :: rest) = _
      unfold varintDecode
      rw [if_pos hsmall]
    · have hf0 : 0 < f := by
        rcases Nat.eq_zero_or_pos f with hz | hp
        · subst hz; simp at hu; omega
        · exact hp
      have hdiv : u / 128 < 128 ^ f := by
        rw [pow_succ] at hu
        omega
      rw [if_neg hsmall]
      show varintDecode ((u % 128 + 128) :: (varintEncodeAux f (u / 128) ++ rest)) = _
      unfold varintDecode
      rw [if_neg (by omega), ih (u / 128) hdiv hf0 rest]
      have harith : (u % 128 + 128) % 128 + 128 * (u / 128) = u := by omega
      show Except.ok ((u % 128 + 128) % 128 + 128 * (u / 128), rest) =
        (Except.ok (u, rest) : Except String (Nat × List Nat))
      rw [harith]

theorem varintDecode_encode {u : Nat} (h : u < 2 ^ 64) (rest : List Nat) :
    varintDecode (varintEncode u ++ rest) = Except.ok (u, rest) :=
  varintDecode_encodeAux 10 u (by calc u < 2 ^ 64 := h
                                    _ ≤ 128 ^ 10 := by norm_num)
    (by norm_num) rest

theorem readVarints_cons {n : Nat} {bs : List Nat} {v : Nat} {rest : List Nat}
    (hd : varintDecode bs = Except.ok (v, rest)) :
    readVarints (n + 1) bs =
      match readVarints n rest with
      | Except.error e => Except.error e
      | Except.ok vs => Except.ok (v :: vs) := by
  show (match varintDecode bs with
        | Except.error e => Except.error e
        | Except.ok (v, rest) =>
          match readVarints n rest with
          | Except.error e => Except.error e
          | Except.ok vs => Except.ok (v :: vs)) = _
  rw [hd]

theorem readVarints_encodeBody :
    ∀ (data : List Int), (∀ i ∈ data, validI64 i) → ∀ prev,
      readVarints data.length (encodeBody prev data) =
        Except.ok (zstream prev data) := by
  intro data
  induction data with
  | nil => intro _ _; rfl
  | cons x xs ih =>
    intro h prev
    have hxs : ∀ i ∈ xs, validI64 i := fun i hi => h i (by simp [hi])
    have hz : zigzag (wrap64 (x - prev)) < 2 ^ 64 := zigzag_lt (wrap64_valid _)
    show readVarints (xs.length + 1)
      (varintEncode (zigzag (wrap64 (x - prev))) ++ encodeBody x xs) = _
    rw [readVarints_cons (varintDecode_encode hz (encodeBody x xs)), ih hxs x]
    rfl

theorem u64leValue_u64leBytes {n : Nat} (h : n < 2 ^ 64) :
    u64leValue (u64leBytes n) = n := by
  unfold u64leValue u64leBytes
  simp only [List.foldr]
  omega

/-! Evaluation of `compress` and `decompress` on the header shape. -/

theorem compress_cons (bc : BlockCodec) (x : Int) (xs : List Int) :
    compress bc (x :: xs) =
      Except.ok (magic ++ [1, 1] ++ u64leBytes (xs.length + 1) ++
        bc.comp (encodeBody 0 (x :: xs))) := by
  unfold compress
  rw [if_neg (by simp), List.length_cons]

theorem decompress_header (bc : BlockCodec) (n : Nat) (tail : List Nat) :
    decompress bc (magic ++ [1, 1] ++ u64leBytes n ++ tail) =
      match bc.decomp tail with
      | Except.error e => Except.error ("lz4 decompress failed: " ++ e)
      | Except.ok packed =>
        match readVarints (u64leValue (u64leBytes n)) packed with
        | Except.error e => Except.error e
        | Except.ok vs => Except.ok (decodeAcc 0 vs) := by
  have hb : magic ++ [1, 1] ++ u64leBytes n ++ tail =
      79 :: 82 :: 83 :: 79 :: 1 :: 1 :: (u64leBytes n ++ tail) := by
    simp [magic, u64leBytes]
  have hlen : (u64leBytes n ++ tail).length = 8 + tail.length := by
    simp [u64leBytes]
    omega
  unfold decompress
  rw [hb]
  rw [if_neg (by simp)]
  rw [if_neg (by simp only [List.length_cons, hlen]; omega)]
  rw [if_neg (fun hc => hc rfl)]
  rw [if_neg (fun hc => hc rfl)]
  rw [if_neg (fun hc => hc rfl)]
  rfl

/-- Core round trip of the integer codec: under the block compressor's
lossless contract, compressing any sequence of in-range `i64` values
succeeds and decompressing the result returns the sequence unchanged. -/
theorem compress_decompress_ok (bc : BlockCodec) (hbc : bc.Lossless)
    {data : List Int} (hval : ∀ i ∈ data, validI64 i)
    (hlen : data.length < 2 ^ 64) :
    ∃ blob, compress bc data = Except.ok blob ∧
      decompress bc blob = Except.ok data := by
  cases data with
  | nil => exact ⟨[], rfl, rfl⟩
  | cons x xs =>
    refine ⟨_, compress_cons bc x xs, ?_⟩
    rw [decompress_header bc (xs.length + 1) (bc.comp (encodeBody 0 (x :: xs)))]
    rw [hbc (encodeBody 0 (x :: xs))]
    show (match readVarints (u64leValue (u64leBytes (xs.length + 1)))
            (encodeBody 0 (x :: xs)) with
          | Except.error e => Except.error e
          | Except.ok vs => Except.ok (decodeAcc 0 vs)) = Except.ok (x :: xs)
    rw [u64leValue_u64leBytes (by simpa using hlen)]
    have hr := readVarints_encodeBody (x :: xs) hval 0
    rw [show (x :: xs).length = xs.length + 1 from rfl] at hr
    rw [hr]
    show Except.ok (decodeAcc 0 (zstream 0 (x :: xs))) = Except.ok (x :: xs)
    rw [decodeAcc_zstream (x :: xs) hval 0 (by constructor <;> norm_num)]

/-! Helper lemmas for the claim theorems. -/

theorem mapM_except_cons {α β : Type} (f : α → Except String β) (x : α)
    (xs : List α) {b : β} {bs : List β} (hx : f x = Except.ok b)
    (hxs : xs.mapM f = Except.ok bs) :
    (x :: xs).mapM f = Except.ok (b :: bs) := by
  simp only [List.mapM_cons, hx, hxs]
  rfl

/-- Batch round trip: compressing a collection of sequences with
`compress_many` succeeds, `decompress_many` recovers the collection, and
each output position is exactly the single-sequence result for the same
input position. -/
theorem batch_roundtrip (bc : BlockCodec) (hbc : bc.Lossless) :
    ∀ (arrays : List (List Int)),
      (∀ a ∈ arrays, (∀ i ∈ a, validI64 i) ∧ a.length < 2 ^ 64) →
      ∃ blobs, compress_many bc arrays = Except.ok blobs ∧
        decompress_many bc blobs = Except.ok arrays ∧
        blobs.length = arrays.length ∧
        (∀ k, k < arrays.length →
          compress bc (arrays.getD k []) = Except.ok (blobs.getD k []) ∧
          decompress bc (blobs.getD k []) = Except.ok (arrays.getD k [])) := by
  intro arrays
  induction arrays with
  | nil =>
    intro _
    exact ⟨[], rfl, rfl, rfl, fun k hk => absurd hk (by simp)⟩
  | cons x xs ih =>
    intro h
    obtain ⟨hx, hxl⟩ := h x (by simp)
    obtain ⟨b, hcb, hdb⟩ := compress_decompress_ok bc hbc hx hxl
    obtain ⟨bs, hcbs, hdbs, hlen, hidx⟩ := ih (fun a ha => h a (by simp [ha]))
    refine ⟨b :: bs, ?_, ?_, by simp [hlen], ?_⟩
    · exact mapM_except_cons (compress bc) x xs hcb hcbs
    · exact mapM_except_cons (decompress bc) b bs hdb hdbs
    · intro k hk
      cases k with
      | zero => exact ⟨hcb, hdb⟩
      | succ n =>
        have hn : n < xs.length := by simpa using hk
        simpa using hidx n hn

theorem decompress_short (bc : BlockCodec) (b : List Nat) (h1 : b ≠ [])
    (h2 : b.length < 14) :
    decompress bc b = Except.error "blob too small" := by
  unfold decompress
  rw [if_neg h1, if_pos h2]

theorem decompress_bad_magic (bc : BlockCodec) (b : List Nat) (h1 : b ≠ [])
    (h2 : ¬b.length < 14) (h3 : b.take 4 ≠ magic) :
    decompress bc b = Except.error "bad magic" := by
  unfold decompress
  rw [if_neg h1, if_neg h2, if_pos h3]

theorem decompress_bad_version (bc : BlockCodec) (b : List Nat) (h1 : b ≠ [])
    (h2 : ¬b.length < 14) (h3 : b.take 4 = magic) (h4 : b.getD 4 0 ≠ 1) :
    decompress bc b = Except.error "bad version" := by
  unfold decompress
  rw [if_neg h1, if_neg h2, if_neg (fun hc => hc h3), if_pos h4]

theorem decompress_bad_scheme (bc : BlockCodec) (b : List Nat) (h1 : b ≠ [])
    (h2 : ¬b.length < 14) (h3 : b.take 4 = magic) (h4 : b.getD 4 0 = 1)
    (h5 : b.getD 5 0 ≠ 1) :
    decompress bc b = Except.error "unsupported codec" := by
  unfold decompress
  rw [if_neg h1, if_neg h2, if_neg (fun hc => hc h3),
    if_neg (fun hc => hc h4), if_pos h5]

theorem column_def_decomp (fieldName : String) (a : ColumnAttr) (ty : RustTy) :
    column_def fieldName a ty =
      (fieldName ++ " " ++ base_type a ty) ++
        column_def_suffix a ty (base_type a ty) := by
  unfold column_def column_def_suffix
  split_ifs <;> cases a.foreignTable <;>
    simp [*, String.append_assoc, String.append_empty] <;> congr 1

theorem fingerprintEq_refl (a : List ColumnDesc) : fingerprintEq a a = true := by
  unfold fingerprintEq
  rw [Bool.and_eq_true]
  refine ⟨?_, ?_⟩ <;>
    · rw [List.all_eq_true]
      intro c hc
      rw [List.any_eq_true]
      exact ⟨c, hc, by simp [sameColAttrs]⟩

theorem migrationCycle_matched (desired : List ColumnDesc)
    {act : List ColumnDesc} (h : fingerprintEq desired act = true) :
    migrationCycle desired (some act) =
      (MigrationAction.schemaMatched, some act) := by
  simp [migrationCycle, diff, h]

theorem migrationCycle_rebuild (desired : List ColumnDesc)
    {act : List ColumnDesc} (h : ¬fingerprintEq desired act = true) :
    (migrationCycle desired (some act)).2 = some desired := by
  simp [migrationCycle, diff, h]

/-! Claim theorems. -/

/-- C1: for every finite sequence of 64-bit signed integers (including the
empty, single-element, monotonic and arbitrary cases), decompressing the
result of compressing the sequence with the integer codec returns exactly
the sequence, under the external block compressor's lossless contract (the
sequence length fitting the header's u64 count is automatic for
machine-resident data). -/
theorem C1_roundtrip (bc : BlockCodec) (hbc : bc.Lossless)
    (data : List Int) (hval : ∀ i ∈ data, validI64 i)
    (hlen : data.length < 2 ^ 64) :
    ∃ blob, compress bc data = Except.ok blob ∧
      decompress bc blob = Except.ok data :=
  compress_decompress_ok bc hbc hval hlen

/-- Witness for C1 at the concrete sequence [0, 1, -5, 2^62]. -/
theorem C1_witness :
    idBC.Lossless ∧ (∀ i ∈ ([0, 1, -5, 2 ^ 62] : List Int), validI64 i) ∧
    ([0, 1, -5, 2 ^ 62] : List Int).length < 2 ^ 64 ∧
    ∃ blob, compress idBC [0, 1, -5, 2 ^ 62] = Except.ok blob ∧
      decompress idBC blob = Except.ok [0, 1, -5, 2 ^ 62] :=
  ⟨idBC_lossless, by decide, by decide,
    C1_roundtrip idBC idBC_lossless [0, 1, -5, 2 ^ 62] (by decide) (by decide)⟩

/-- C2 counterexample: truncating the valid blob of the non-empty sequence
[5] to zero bytes — fewer than the 14 header bytes — does not make
decompress fail: the empty-blob special case returns Ok [], a sequence
different from the original. -/
theorem C2_counterexample :
    compress idBC [5] =
      Except.ok [79, 82, 83, 79, 1, 1, 1, 0, 0, 0, 0, 0, 0, 0, 10] ∧
    decompress idBC
        (List.take 0 [79, 82, 83, 79, 1, 1, 1, 0, 0, 0, 0, 0, 0, 0, 10]) =
      Except.ok [] ∧
    ([] : List Int) ≠ [5] :=
  ⟨rfl, rfl, by decide⟩

/-- C2 (amended): for every valid compressed blob of a non-empty sequence,
decompress fails with a decode error when the blob is truncated to at least
one and fewer than the 14 header bytes (truncation to zero bytes instead
hits the empty-blob special case and returns Ok []), or when its 4 magic
bytes are replaced by any other 4 bytes, or when the version byte (offset
4) or scheme byte (offset 5) is set to a value other than 1. -/
theorem C2_header_corruption (bc : BlockCodec) (data : List Int)
    (hne : data ≠ []) (blob : List Nat)
    (hb : compress bc data = Except.ok blob) :
    (∀ k, 1 ≤ k → k < 14 →
      decompress bc (blob.take k) = Except.error "blob too small") ∧
    (∀ m : List Nat, m.length = 4 → m ≠ magic →
      decompress bc (m ++ blob.drop 4) = Except.error "bad magic") ∧
    (∀ v, v ≠ 1 →
      decompress bc (blob.set 4 v) = Except.error "bad version") ∧
    (∀ s, s ≠ 1 →
      decompress bc (blob.set 5 s) = Except.error "unsupported codec") := by
  cases data with
  | nil => exact absurd rfl hne
  | cons x xs =>
    rw [compress_cons] at hb
    injection hb with hb
    subst hb
    have hcons : magic ++ [1, 1] ++ u64leBytes (xs.length + 1) ++
        bc.comp (encodeBody 0 (x :: xs)) =
        79 :: 82 :: 83 :: 79 :: 1 :: 1 ::
          (u64leBytes (xs.length + 1) ++ bc.comp (encodeBody 0 (x :: xs))) := by
      simp [magic, u64leBytes]
    have htail : (u64leBytes (xs.length + 1) ++
        bc.comp (encodeBody 0 (x :: xs))).length =
        8 + (bc.comp (encodeBody 0 (x :: xs))).length := by
      simp [u64leBytes]
      omega
    simp only [hcons]
    refine ⟨?_, ?_, ?_, ?_⟩
    · intro k hk1 hk14
      apply decompress_short
      · intro hcontra
        rw [List.take_eq_nil_iff] at hcontra
        rcases hcontra with h0 | h0
        · omega
        · simp at h0
      · rw [List.length_take]
        omega
    · intro m hm4 hmm
      have hdrop : (79 :: 82 :: 83 :: 79 :: 1 :: 1 ::
          (u64leBytes (xs.length + 1) ++
            bc.comp (encodeBody 0 (x :: xs)))).drop 4 =
          1 :: 1 :: (u64leBytes (xs.length + 1) ++
            bc.comp (encodeBody 0 (x :: xs))) := rfl
      rw [hdrop]
      apply decompress_bad_magic
      · simp
      · rw [List.length_append, hm4]
        simp only [List.length_cons, htail]
        omega
      · rw [List.take_left' hm4]
        exact hmm
    · intro v hv
      have hset : (79 :: 82 :: 83 :: 79 :: 1 :: 1 ::
          (u64leBytes (xs.length + 1) ++
            bc.comp (encodeBody 0 (x :: xs)))).set 4 v =
          79 :: 82 :: 83 :: 79 :: v :: 1 ::
            (u64leBytes (xs.length + 1) ++
              bc.comp (encodeBody 0 (x :: xs))) := rfl
      rw [hset]
      apply decompress_bad_version
      · simp
      · simp only [List.length_cons, htail]
        omega
      · rfl
      · exact hv
    · intro s hs
      have hset : (79 :: 82 :: 83 :: 79 :: 1 :: 1 ::
          (u64leBytes (xs.length + 1) ++
            bc.comp (encodeBody 0 (x :: xs)))).set 5 s =
          79 :: 82 :: 83 :: 79 :: 1 :: s ::
            (u64leBytes (xs.length + 1) ++
              bc.comp (encodeBody 0 (x :: xs))) := rfl
      rw [hset]
      apply decompress_bad_scheme
      · simp
      · simp only [List.length_cons, htail]
        omega
      · rfl
      · rfl
      · exact hs

/-- Witness for C2: the corruption results at the concrete blob of [5],
truncated to 3 bytes, with zeroed magic, and with version and scheme bytes
set to 2. -/
theorem C2_witness :
    decompress idBC
        (List.take 3 [79, 82, 83, 79, 1, 1, 1, 0, 0, 0, 0, 0, 0, 0, 10]) =
      Except.error "blob too small" ∧
    decompress idBC
        ([0, 0, 0, 0] ++
          List.drop 4 [79, 82, 83, 79, 1, 1, 1, 0, 0, 0, 0, 0, 0, 0, 10]) =
      Except.error "bad magic" ∧
    decompress idBC
        (List.set [79, 82, 83, 79, 1, 1, 1, 0, 0, 0, 0, 0, 0, 0, 10] 4 2) =
      Except.error "bad version" ∧
    decompress idBC
        (List.set [79, 82, 83, 79, 1, 1, 1, 0, 0, 0, 0, 0, 0, 0, 10] 5 2) =
      Except.error "unsupported codec" := by
  have h := C2_header_corruption idBC [5] (by decide)
    [79, 82, 83, 79, 1, 1, 1, 0, 0, 0, 0, 0, 0, 0, 10] rfl
  exact ⟨h.1 3 (by decide) (by decide), h.2.1 [0, 0, 0, 0] (by decide) (by decide),
    h.2.2.1 2 (by decide), h.2.2.2 2 (by decide)⟩

/-- C3 counterexample: decoding the stored compressed column value
[1, 2, 3] fails in the codec, yet the generated from_map read path produces
the fallback string value instead of surfacing the error. -/
theorem C3_counterexample :
    (decompress idBC [1, 2, 3]).isOk = false ∧
    fromMapCompressedBlob idBC [1, 2, 3] =
      Json.str "Failed to decompress: [1, 2, 3]" :=
  ⟨rfl, rfl⟩

/-- C3 (amended): whenever decoding a stored compressed blob fails, the
generated from_map does not surface the error to its caller: it substitutes
the fallback string "Failed to decompress: ..." as the field's value (the
codec's own decompress does return the error, but from_map swallows it). -/
theorem C3_decode_fallback (bc : BlockCodec) (b : List Nat)
    (h : (decompress bc b).isOk = false) :
    fromMapCompressedBlob bc b =
      Json.str ("Failed to decompress: " ++ rustDebugList b) := by
  unfold fromMapCompressedBlob
  cases hd : decompress bc b with
  | ok v =>
    rw [hd] at h
    simp [Except.isOk, Except.toBool] at h
  | error e => rfl

/-- Witness for C3 at the concrete undecodable blob [9]. -/
theorem C3_witness :
    (decompress idBC [9]).isOk = false ∧
    fromMapCompressedBlob idBC [9] =
      Json.str ("Failed to decompress: " ++ rustDebugList [9]) :=
  ⟨rfl, C3_decode_fallback idBC [9] rfl⟩

/-- C4: compressing the empty sequence yields the empty blob with no header
at all, and decompressing the empty blob yields the empty sequence; both
are the explicit early returns that bypass header construction and
validation entirely. -/
theorem C4_empty_special_case (bc : BlockCodec) :
    compress bc [] = Except.ok [] ∧ decompress bc [] = Except.ok [] :=
  ⟨rfl, rfl⟩

/-- Witness for C4 at the concrete block codec instance. -/
theorem C4_witness :
    compress idBC [] = Except.ok [] ∧ decompress idBC [] = Except.ok [] :=
  C4_empty_special_case idBC

/-- C5: for every non-empty input sequence, the compressed blob begins with
the fixed header — bytes 0-3 the magic constant, byte 4 the format version
1, byte 5 the block-compression scheme identifier 1, bytes 6-13 the element
count as 8 little-endian bytes — followed from offset 14 by the
block-compressed varint payload (which the external compressor emits
size-prefixed). -/
theorem C5_header_layout (bc : BlockCodec) (data : List Int) (hne : data ≠ [])
    (hlen : data.length < 2 ^ 64) :
    ∃ blob, compress bc data = Except.ok blob ∧
      blob.take 4 = magic ∧ blob.getD 4 0 = 1 ∧ blob.getD 5 0 = 1 ∧
      (blob.drop 6).take 8 = u64leBytes data.length ∧
      u64leValue ((blob.drop 6).take 8) = data.length ∧
      blob.drop 14 = bc.comp (encodeBody 0 data) := by
  cases data with
  | nil => exact absurd rfl hne
  | cons x xs =>
    refine ⟨_, compress_cons bc x xs, rfl, rfl, rfl, rfl, ?_, rfl⟩
    show u64leValue (u64leBytes (xs.length + 1)) = xs.length + 1
    exact u64leValue_u64leBytes (by simpa using hlen)

/-- Witness for C5 at the concrete sequence [7, 8]. -/
theorem C5_witness :
    (([7, 8] : List Int) ≠ []) ∧ (([7, 8] : List Int).length < 2 ^ 64) ∧
    ∃ blob, compress idBC [7, 8] = Except.ok blob ∧
      blob.take 4 = magic ∧ blob.getD 4 0 = 1 ∧ blob.getD 5 0 = 1 ∧
      (blob.drop 6).take 8 = u64leBytes ([7, 8] : List Int).length ∧
      u64leValue ((blob.drop 6).take 8) = ([7, 8] : List Int).length ∧
      blob.drop 14 = idBC.comp (encodeBody 0 [7, 8]) :=
  ⟨by decide, by decide, C5_header_layout idBC [7, 8] (by decide) (by decide)⟩

/-- C6: the codec's delta arithmetic is modular — every in-range value
survives the zigzag transform, and the wrapping running-sum decode inverts
the wrapping-delta encode for every sequence of in-range values, including
sequences whose adjacent elements differ by more than the i64 range. -/
theorem C6_modular_delta (data : List Int) (h : ∀ i ∈ data, validI64 i) :
    (∀ d : Int, validI64 d → unzigzag (zigzag d) = d) ∧
    decodeAcc 0 (zstream 0 data) = data :=
  ⟨fun _ hd => unzigzag_zigzag hd,
   decodeAcc_zstream data h 0 (by constructor <;> norm_num)⟩

/-- Witness for C6 at the extreme sequence [i64::MIN, i64::MAX], whose
adjacent elements differ by more than the i64 range. -/
theorem C6_witness :
    (∀ i ∈ ([-(2 ^ 63), 2 ^ 63 - 1] : List Int), validI64 i) ∧
    decodeAcc 0 (zstream 0 ([-(2 ^ 63), 2 ^ 63 - 1] : List Int)) =
      [-(2 ^ 63), 2 ^ 63 - 1] :=
  ⟨by decide, (C6_modular_delta [-(2 ^ 63), 2 ^ 63 - 1] (by decide)).2⟩

/-- C7: batch compression followed by batch decompression recovers every
sequence at its original index, and both batch operations mirror the input
ordering: position k of the batch output is exactly the single-sequence
result on position k of the input. -/
theorem C7_batch (bc : BlockCodec) (hbc : bc.Lossless)
    (arrays : List (List Int))
    (hval : ∀ a ∈ arrays, (∀ i ∈ a, validI64 i) ∧ a.length < 2 ^ 64) :
    ∃ blobs, compress_many bc arrays = Except.ok blobs ∧
      decompress_many bc blobs = Except.ok arrays ∧
      blobs.length = arrays.length ∧
      (∀ k, k < arrays.length →
        compress bc (arrays.getD k []) = Except.ok (blobs.getD k []) ∧
        decompress bc (blobs.getD k []) = Except.ok (arrays.getD k [])) :=
  batch_roundtrip bc hbc arrays hval

/-- Witness for C7 at the concrete batch [[1, 2], [3]]. -/
theorem C7_witness :
    idBC.Lossless ∧
    (∀ a ∈ ([[1, 2], [3]] : List (List Int)),
      (∀ i ∈ a, validI64 i) ∧ a.length < 2 ^ 64) ∧
    ∃ blobs, compress_many idBC [[1, 2], [3]] = Except.ok blobs ∧
      decompress_many idBC blobs = Except.ok [[1, 2], [3]] ∧
      blobs.length = ([[1, 2], [3]] : List (List Int)).length ∧
      (∀ k, k < ([[1, 2], [3]] : List (List Int)).length →
        compress idBC (([[1, 2], [3]] : List (List Int)).getD k []) =
          Except.ok (blobs.getD k []) ∧
        decompress idBC (blobs.getD k []) =
          Except.ok (([[1, 2], [3]] : List (List Int)).getD k [])) :=
  ⟨idBC_lossless, by decide,
    C7_batch idBC idBC_lossless [[1, 2], [3]] (by decide)⟩

/-- C8: a column marked compressed always gets physical storage type BLOB
in the generated CREATE TABLE column definition, regardless of the field's
Rust type or any declared type override. -/
theorem C8_compressed_blob (fieldName : String) (a : ColumnAttr) (ty : RustTy)
    (h : a.isCompressed = true) :
    base_type a ty = "BLOB" ∧
    column_def fieldName a ty =
      fieldName ++ " BLOB" ++ column_def_suffix a ty "BLOB" := by
  have hbase : base_type a ty = "BLOB" := by
    unfold base_type
    rw [if_pos h]
  refine ⟨hbase, ?_⟩
  rw [column_def_decomp, hbase]
  congr 1
  rw [String.append_assoc]
  exact congrArg (fun t => fieldName ++ t) rfl

/-- Witness for C8: a compressed column with an explicit INTEGER type
override on an i64 field still gets BLOB storage. -/
theorem C8_witness :
    (ColumnAttr.mk (some "INTEGER") false none false false true false
      false).isCompressed = true ∧
    base_type (ColumnAttr.mk (some "INTEGER") false none false false true
      false false) RustTy.i64 = "BLOB" ∧
    column_def "data" (ColumnAttr.mk (some "INTEGER") false none false false
      true false false) RustTy.i64 =
      "data" ++ " BLOB" ++
        column_def_suffix (ColumnAttr.mk (some "INTEGER") false none false
          false true false false) RustTy.i64 "BLOB" :=
  ⟨rfl, C8_compressed_blob "data"
    (ColumnAttr.mk (some "INTEGER") false none false false true false false)
    RustTy.i64 rfl⟩

/-- C9: running the diff-and-execute migration cycle twice against an
unchanged descriptor set yields SchemaMatched on the second run, and the
second run performs no table mutation (the state after it equals the state
before it): the migration is an idempotent no-op once the schema matches. -/
theorem C9_migration_idempotent (desired : List ColumnDesc)
    (state : Option (List ColumnDesc)) :
    (migrationCycle desired (migrationCycle desired state).2).1 =
      MigrationAction.schemaMatched ∧
    (migrationCycle desired (migrationCycle desired state).2).2 =
      (migrationCycle desired state).2 := by
  have hself : migrationCycle desired (some desired) =
      (MigrationAction.schemaMatched, some desired) :=
    migrationCycle_matched desired (fingerprintEq_refl desired)
  cases state with
  | none =>
    have h1 : (migrationCycle desired none).2 = some desired := rfl
    rw [h1, hself]
    exact ⟨rfl, rfl⟩
  | some act =>
    by_cases h : fingerprintEq desired act = true
    · have h1 : (migrationCycle desired (some act)).2 = some act := by
        rw [migrationCycle_matched desired h]
      rw [h1, migrationCycle_matched desired h]
      exact ⟨rfl, rfl⟩
    · have h1 : (migrationCycle desired (some act)).2 = some desired :=
        migrationCycle_rebuild desired h
      rw [h1, hself]
      exact ⟨rfl, rfl⟩

/-- Witness for C9 at the MigrationTest descriptors, starting from a
missing table. -/
theorem C9_witness :
    (migrationCycle migrationTestCols
        (migrationCycle migrationTestCols none).2).1 =
      MigrationAction.schemaMatched ∧
    (migrationCycle migrationTestCols
        (migrationCycle migrationTestCols none).2).2 =
      (migrationCycle migrationTestCols none).2 :=
  C9_migration_idempotent migrationTestCols none

/-- C10: compress is total and infallible — every input vector of 64-bit
signed integers yields Ok with a blob.  In the source the only nominally
fallible steps are the varint writes into an in-memory Vec (whose Write
implementation never errors) and the lz4 block compression (which returns
plain bytes), so the Result error branch is unreachable. -/
theorem C10_compress_total (bc : BlockCodec) (data : List Int) :
    ∃ blob, compress bc data = Except.ok blob := by
  unfold compress
  by_cases h : data = []
  · rw [if_pos h]
    exact ⟨[], rfl⟩
  · rw [if_neg h]
    exact ⟨_, rfl⟩

/-- Witness for C10 at the concrete sequence [7]. -/
theorem C10_witness : ∃ blob, compress idBC [7] = Except.ok blob :=
  C10_compress_total idBC [7]

end Orso
